import Mathlib

/-
Verification of the kappa-backend recommendation engine.

The development shallowly embeds the Python source:
- `predict.py` (similarity-weighted rating prediction),
- `cluster.py` (centroid distances and cluster merging),
- `src/kappa/database.py` (the durable snapshot store),
- `src/kappa/precompute.py` (the offline recompute entry point),
- `src/kappa/load_data.py` and `load_data.py` (the feature-matrix builders),
- `src/kappa/main.py` (the per-request pipeline helpers).

Conventions: ratings and feature values are rationals; machine floats in the
source are modelled exactly; calls into external libraries (the sklearn
k-nearest-neighbour search and the sklearn clustering fits) are taken as
oracle inputs to the embedded functions, which model every line of the
repository's own code around them.  Python exceptions are modelled with
`Option`/`Except`; a `none`/`error` result corresponds to a raised exception.
-/

namespace Kappa

/-! ## Data model -/

/-- One raw rating record, as fetched by `fetch_ratings_df` in
`src/kappa/database.py`: a username, a comic id and a rating value. -/
structure RatingRec where
  username : String
  comicID : ℤ
  rating : ℚ
deriving DecidableEq

/-- A pandas DataFrame of the user-item matrix shape: an item index and the
named user columns, each column parallel to the index. -/
structure DF where
  index : List ℤ
  cols : List (String × List ℚ)
deriving DecidableEq

/-- One stored snapshot row of the `precomputed_matrices` table
(`src/kappa/database.py` lines 120-130): the pickled matrix, labels and
centroids plus the `computed_at` timestamp.  The pickle round trip of the
Python standard library is structure preserving, so the blobs are modelled
by the values themselves; time is an abstract tick counter. -/
structure Snapshot where
  user_item_matrix : DF
  cluster_labels : List ℤ
  centroids : Option (List (List ℚ))
  computed_at : ℕ
deriving DecidableEq

/-- The durable snapshot store: at most one snapshot per method name,
matching the `method TEXT PRIMARY KEY` schema. -/
abbrev Store := String → Option Snapshot

/-- Result payload of one `run_precompute` call
(`src/kappa/precompute.py` lines 30-33). -/
structure PrecomputeResult where
  method : String
  items : ℕ
deriving DecidableEq

/-- One row of a clustered ratings frame (`ratings_cluster` in the source):
the comic id index entry, the user rating cells, and the cluster label
column appended by `build_ratings_cluster`. -/
structure CRow where
  comicID : ℤ
  vals : List ℚ
  cluster : ℤ
deriving DecidableEq

/-! ## RatingPredictor (`predict.py` lines 170-201)

The similarities and row indices come back from `find_neighbor`, whose
k-nearest-neighbour search is the external sklearn call; the pairs
`(similarity, rowIndex)` are therefore inputs here.  `col` is the user's
rating column of the clustered frame, indexed by row position. -/

/-- One iteration of the accumulation loop in `predict`
(`predict.py` lines 174-188): a neighbor is skipped when its row index is
the query item's location, or when its rating by the user is the sentinel
0; otherwise `wtd_sum` gains `rating * similarity` and `sum_wt` gains
`abs similarity`.  The accumulator carries `(wtd_sum, sum_wt)`. -/
def predictStep (itemLoc : ℕ) (col : List ℚ) (acc : ℚ × ℚ) (nb : ℚ × ℕ) : ℚ × ℚ :=
  if nb.2 = itemLoc then acc
  else if col.getD nb.2 0 = 0 then acc
  else (acc.1 + col.getD nb.2 0 * nb.1, acc.2 + |nb.1|)

/-- The accumulated `(wtd_sum, sum_wt)` over the neighbor list
(`predict.py` lines 171-188). -/
def predictSums (neighbors : List (ℚ × ℕ)) (itemLoc : ℕ) (col : List ℚ) : ℚ × ℚ :=
  neighbors.foldl (predictStep itemLoc col) (0, 0)

/-- The final prediction (`predict.py` lines 196-201): 0 when the weight
sum is zero, otherwise `wtd_sum / sum_wt`.  The function is total: the
zero-weight case is a normal return value, not an exception. -/
def predictRating (neighbors : List (ℚ × ℕ)) (itemLoc : ℕ) (col : List ℚ) : ℚ :=
  if (predictSums neighbors itemLoc col).2 = 0 then 0
  else (predictSums neighbors itemLoc col).1 / (predictSums neighbors itemLoc col).2

/-- Specification-side view of the loop's skip conditions: the neighbors
that actually contribute, namely those that are neither the query item's
row nor unrated (sentinel 0) by the user. -/
def admissibleNeighbors (neighbors : List (ℚ × ℕ)) (itemLoc : ℕ) (col : List ℚ) :
    List (ℚ × ℕ) :=
  neighbors.filter (fun nb => nb.2 ≠ itemLoc ∧ col.getD nb.2 0 ≠ 0)

/-! ## PrecomputeCache (`src/kappa/database.py` lines 295-340) -/

/-- The keyed upsert `save_precomputed`: `INSERT ... ON CONFLICT(method) DO
UPDATE` replaces the whole row for `method`, stamping `computed_at` with the
current time `now`. -/
def save_precomputed (store : Store) (method : String) (m : DF) (labels : List ℤ)
    (cents : Option (List (List ℚ))) (now : ℕ) : Store :=
  fun q => if q = method then some ⟨m, labels, cents, now⟩ else store q

/-- The point lookup `load_precomputed`: the row for `method`, or `none`
when no snapshot has been computed yet. -/
def load_precomputed (store : Store) (method : String) : Option Snapshot :=
  store method

/-! ## FeatureMatrixBuilder (`src/kappa/load_data.py`, `load_data.py`) -/

/-- Ascending sort of integer item ids (the order `numpy.unique` and the
pandas pivot index use). -/
def sortInts (l : List ℤ) : List ℤ :=
  List.insertionSort (fun a b : ℤ => a ≤ b) l

/-- The value of `numpy.unique`: the sorted distinct values of the input. -/
def np_unique (l : List ℤ) : List ℤ :=
  (sortInts l).dedup

/-- The value of `numpy.setdiff1d a b`: the sorted distinct values of `a`
that do not occur in `b`. -/
def np_setdiff1d (a b : List ℤ) : List ℤ :=
  (np_unique a).filter (fun x => x ∉ b)

/-- The row index of the pivot table in `load_rating_data`
(`src/kappa/load_data.py` lines 27-33): all distinct comic ids of the
rating records, ascending. -/
def pivotIndex (data : List RatingRec) : List ℤ :=
  np_unique (data.map (fun r => r.comicID))

/-- The column names of the pivot table: all distinct usernames of the
rating records, ascending. -/
def pivotUsers (data : List RatingRec) : List String :=
  (List.insertionSort (fun a b : String => a ≤ b)
    (data.map (fun r => r.username))).dedup

/-- The ratings of the `(item, user)` group of the pivot. -/
def pivotRatings (data : List RatingRec) (item : ℤ) (user : String) : List ℚ :=
  (data.filter (fun r => r.comicID = item ∧ r.username = user)).map
    (fun r => r.rating)

/-- One cell of the pivot table built with `aggfunc = max` and
`fill_value = 0`: the maximum rating the user gave the item, or the
sentinel 0 when the user never rated it. -/
def pivotCell (data : List RatingRec) (item : ℤ) (user : String) : ℚ :=
  match pivotRatings data item user with
  | [] => 0
  | x :: xs => xs.foldl max x

/-- The full user-item pivot table of `load_rating_data`. -/
def pivotDF (data : List RatingRec) : DF :=
  ⟨pivotIndex data,
   (pivotUsers data).map (fun u =>
     (u, (pivotIndex data).map (fun i => pivotCell data i u)))⟩

/-- First matching genre row for an item id.  The `comic_genres` table
enforces `comic_id ... UNIQUE`, so the genre table behaves as a partial
map from item id to genre vector. -/
def lookupGenre (gt : List (ℤ × List ℚ)) (i : ℤ) : Option (List ℚ) :=
  (gt.find? (fun g => g.1 = i)).map Prod.snd

/-- The cluster feature rows built by the kappa builder
(`src/kappa/load_data.py` line 36): `pd.merge(pivot, genre, on = comicID,
how = "inner")` — an item row survives only when a genre row with its id
exists, and the genre vector is appended to the rating row. -/
def kappaClusterRows (pivot : List (ℤ × List ℚ)) (gt : List (ℤ × List ℚ)) :
    List (ℤ × List ℚ) :=
  pivot.filterMap (fun p => (lookupGenre gt p.1).map (fun g => (p.1, p.2 ++ g)))

/-- The cluster feature rows built by the legacy builder
(`load_data.py` lines 138-155): `pd.merge(..., how = "left")` followed by
`fillna(0)` — every item row is kept, and a missing genre row becomes an
all-zero genre vector of width `g`. -/
def legacyClusterRows (pivot : List (ℤ × List ℚ)) (gt : List (ℤ × List ℚ))
    (g : ℕ) : List (ℤ × List ℚ) :=
  pivot.map (fun p => (p.1, p.2 ++ (lookupGenre gt p.1).getD (List.replicate g 0)))

/-! ## BackgroundPrecomputer entry point (`src/kappa/precompute.py`) -/

/-- The body of `run_precompute` (lines 9-33).  The sklearn clustering fits
are external library calls: their outputs — the kmeans labels and
centroids, and the dbscan labels — enter as the oracle arguments
`kmLabels`, `kmCentroids` and `dbLabels`.  Everything else follows the
source: empty inputs raise first, then the method is dispatched, an
unrecognized method raises `ValueError ("Unknown precompute method")`
before any save, and a recognized method saves its snapshot and reports
the method name with the item count `len(user_item_matrix.index)`.
The pair carries the call's outcome and the store after the call. -/
def run_precompute (ratings : List RatingRec) (genres : List (ℤ × List ℚ))
    (kmLabels : List ℤ) (kmCentroids : List (List ℚ)) (dbLabels : List ℤ)
    (now : ℕ) (store : Store) (method : String) :
    Except String PrecomputeResult × Store :=
  if ratings = [] ∨ genres = [] then
    (Except.error "Missing ratings or comic genre data", store)
  else if method = "kmeans" then
    (Except.ok ⟨"kmeans", (pivotIndex ratings).length⟩,
     save_precomputed store "kmeans" (pivotDF ratings) kmLabels (some kmCentroids) now)
  else if method = "dbscan" then
    (Except.ok ⟨"dbscan", (pivotIndex ratings).length⟩,
     save_precomputed store "dbscan" (pivotDF ratings) dbLabels none now)
  else
    (Except.error "Unknown precompute method", store)

/-! ## Centroid distance and ClusterMerger (`cluster.py`) -/

/-- Squared Euclidean distance between two feature vectors.  The source
(line 167) calls sklearn's euclidean distance, the square root of this
sum; the square root is strictly monotone, symmetric-preserving and fixes
zero, so symmetry, self-distance behaviour, comparison order and sort
order are all unchanged by carrying the squared value, which keeps the
development executable over the rationals. -/
def sqDist (u v : List ℚ) : ℚ :=
  (List.zipWith (fun a b => (a - b) ^ 2) u v).sum

/-- The body of `find_centroid_distance` (`cluster.py` lines 136-179):
out-of-bounds query raises `IndexError` (modelled `none`); otherwise the
association list over all other cluster indices, in ascending index order
— the entry for `which` itself is skipped by the `continue`. -/
def find_centroid_distance (which : ℤ) (centroids : List (List ℚ)) :
    Option (List (ℤ × ℚ)) :=
  if which < 0 ∨ (centroids.length : ℤ) ≤ which then none
  else
    some ((List.range centroids.length).filterMap (fun (i : ℕ) =>
      if (i : ℤ) = which then none
      else some ((i : ℤ),
        sqDist (centroids.getD which.toNat []) (centroids.getD i []))))

/-- Dictionary lookup into the result of `find_centroid_distance`: the
distance the function reports from cluster `a` to cluster `b`, when any. -/
def centroidLookup (a b : ℤ) (centroids : List (List ℚ)) : Option ℚ :=
  (find_centroid_distance a centroids).bind (fun l =>
    (l.find? (fun p => p.1 = b)).map Prod.snd)

/-- Ascending order on `(label, distance)` entries: by distance, ties by
the smaller label.  Python's stable `sorted(..., key = value)` applied to
the dict items (which are in ascending label order) produces exactly this
lexicographic order. -/
def distAscOrder (a b : ℤ × ℚ) : Prop :=
  a.2 < b.2 ∨ (a.2 = b.2 ∧ a.1 ≤ b.1)

instance : DecidableRel distAscOrder := fun a b =>
  inferInstanceAs (Decidable (a.2 < b.2 ∨ (a.2 = b.2 ∧ a.1 ≤ b.1)))

/-- The members of one cluster in the full clustered frame
(`all_ratings.loc [all_ratings.cluster == c]`). -/
def clusterRows (all : List CRow) (c : ℤ) : List CRow :=
  all.filter (fun r => r.cluster = c)

/-- The merge loop of `merge_cluster` (`cluster.py` lines 228-244): walk
the distance-sorted clusters; stop as soon as the working member count
(`len - 1`, the query row excluded) reaches `k`; otherwise append the
whole nearest cluster and continue.  The second component counts the
merge iterations actually performed. -/
def mergeGo (all : List CRow) (k : ℤ) :
    List (ℤ × ℚ) → List CRow → List CRow × ℕ
  | [], cur => (cur, 0)
  | p :: rest, cur =>
    if k ≤ (cur.length : ℤ) - 1 then (cur, 0)
    else
      ((mergeGo all k rest (cur ++ clusterRows all p.1)).1,
       (mergeGo all k rest (cur ++ clusterRows all p.1)).2 + 1)

/-- The distance-sorted cluster list of `merge_cluster` (line 226). -/
def mergeSorted (cd : List (ℤ × ℚ)) : List (ℤ × ℚ) :=
  List.insertionSort distAscOrder cd

/-- The body of `merge_cluster` (`cluster.py` lines 182-250): distances to
the other clusters (an out-of-bounds cluster raises, modelled `none`); an
empty distance dict returns the working set unchanged; otherwise the merge
loop over the distance-sorted clusters.  Exhausting every cluster without
reaching `k` members still returns the accumulated best-effort set. -/
def merge_cluster (clustered all : List CRow) (which : ℤ)
    (centroids : List (List ℚ)) (k : ℤ) : Option (List CRow) :=
  match find_centroid_distance which centroids with
  | none => none
  | some cd =>
    if cd = [] then some clustered
    else some (mergeGo all k (mergeSorted cd) clustered).1

/-- The number of merge iterations `merge_cluster` performs. -/
def mergeIterations (clustered all : List CRow) (which : ℤ)
    (centroids : List (List ℚ)) (k : ℤ) : ℕ :=
  match find_centroid_distance which centroids with
  | none => 0
  | some cd =>
    if cd = [] then 0
    else (mergeGo all k (mergeSorted cd) clustered).2

/-! ## Per-request pipeline helpers (`src/kappa/main.py`) -/

/-- The ephemeral seed-user column name (`src/kappa/main.py` line 26). -/
def KAPPA_USER_ID : String := "KAPPA_NEW_USER"

/-- The `index_lookup` dict of `_build_request_ratings_cluster`
(lines 120-122): a dict comprehension over `enumerate`, so when an id
occurs several times in the index the last position wins. -/
def indexLookup (index : List ℤ) (c : ℤ) : Option ℕ :=
  (index.zip (List.range index.length)).foldl
    (fun acc p => if p.1 = c then some p.2 else acc) none

/-- The seed-user rating vector (lines 119-127): start from zeros, then
for each input entry whose comic id is in the index, assign its rating at
the looked-up position — a later duplicate entry overwrites an earlier
one. -/
def buildUserRatings (index : List ℤ) (input : List (ℤ × ℚ)) : List ℚ :=
  input.foldl (fun arr e =>
    match indexLookup index e.1 with
    | some i => arr.set i e.2
    | none => arr) (List.replicate index.length 0)

/-- The comic ids of the input entries that matched the index, in input
order (`rated_comics`, lines 123-128). -/
def requestRatedComics (index : List ℤ) (input : List (ℤ × ℚ)) : List ℤ :=
  input.filterMap (fun e =>
    if (indexLookup index e.1).isSome then some e.1 else none)

/-- Pandas column assignment `df [name] = v`: replace the column when the
name already exists, otherwise append it as the last column. -/
def setColumn (df : DF) (name : String) (v : List ℚ) : DF :=
  if name ∈ df.cols.map Prod.fst then
    ⟨df.index, df.cols.map (fun c => if c.1 = name then (name, v) else c)⟩
  else
    ⟨df.index, df.cols ++ [(name, v)]⟩

/-- The working matrix of `_build_request_ratings_cluster` (lines 118-129):
a private copy of the cached snapshot matrix (`.copy()` on line 118 — the
cached value itself is never touched, which is why this is a pure function
of the snapshot) with the seed-user column assigned. -/
def request_user_item_matrix (snap : DF) (input : List (ℤ × ℚ)) : DF :=
  setColumn snap KAPPA_USER_ID (buildUserRatings snap.index input)

/-- The `find_nearest_unrated` helper (`src/kappa/main.py` lines 149-174):
for each rated comic present in the index, collect the neighbor ids that
the `nearest_unrated` mode of `find_neighbor` returns over its cluster
(the k-nearest-neighbour search itself is the external sklearn call,
abstracted as `neigh`), flatten, uniquify, and remove the rated comics. -/
def find_nearest_unrated (rated : List ℤ) (index : List ℤ)
    (neigh : ℤ → List ℤ) : List ℤ :=
  np_setdiff1d ((rated.filter (fun i => i ∈ index)).flatMap neigh) rated

/-- Descending order on predictions by predicted rating, the order of
`sorted(prediction_list, key = rating, reverse = True)` on line 233. -/
def ratingDescOrder (a b : ℤ × ℚ) : Prop := b.2 ≤ a.2

instance : DecidableRel ratingDescOrder := fun a b =>
  inferInstanceAs (Decidable (b.2 ≤ a.2))

instance : IsTotal (ℤ × ℚ) ratingDescOrder :=
  ⟨fun a b => le_total b.2 a.2⟩

instance : IsTrans (ℤ × ℚ) ratingDescOrder :=
  ⟨fun _ _ _ h1 h2 => le_trans h2 h1⟩

/-- The prediction list of the `/api/kmeans` handler
(`src/kappa/main.py` lines 217-233): predict each candidate from
`find_nearest_unrated` (the prediction for one item abstracted as
`ratePred`), keep those with predicted rating at least 3, and sort
descending by predicted rating. -/
def kappaPredictionList (rated : List ℤ) (index : List ℤ)
    (neigh : ℤ → List ℤ) (ratePred : ℤ → ℚ) : List (ℤ × ℚ) :=
  List.insertionSort ratingDescOrder
    (((find_nearest_unrated rated index neigh).map (fun i => (i, ratePred i))).filter
      (fun p => (3 : ℚ) ≤ p.2))

end Kappa

namespace Kappa

/-! ## Theorems for the prediction loop -/

theorem predictStep_skip (itemLoc : ℕ) (col : List ℚ) (acc : ℚ × ℚ) (nb : ℚ × ℕ)
    (h : ¬(nb.2 ≠ itemLoc ∧ col.getD nb.2 0 ≠ 0)) :
    predictStep itemLoc col acc nb = acc := by
  unfold predictStep
  by_cases h1 : nb.2 = itemLoc
  · rw [if_pos h1]
  · rw [if_neg h1]
    by_cases h2 : col.getD nb.2 0 = 0
    · rw [if_pos h2]
    · exact absurd ⟨h1, h2⟩ h

theorem predictStep_keep (itemLoc : ℕ) (col : List ℚ) (acc : ℚ × ℚ) (nb : ℚ × ℕ)
    (h : nb.2 ≠ itemLoc ∧ col.getD nb.2 0 ≠ 0) :
    predictStep itemLoc col acc nb
      = (acc.1 + col.getD nb.2 0 * nb.1, acc.2 + |nb.1|) := by
  unfold predictStep
  rw [if_neg h.1, if_neg h.2]

theorem predictSums_foldl (itemLoc : ℕ) (col : List ℚ) (l : List (ℚ × ℕ)) :
    ∀ acc : ℚ × ℚ,
      l.foldl (predictStep itemLoc col) acc
        = (acc.1 + ((admissibleNeighbors l itemLoc col).map
              (fun nb => col.getD nb.2 0 * nb.1)).sum,
           acc.2 + ((admissibleNeighbors l itemLoc col).map
              (fun nb => |nb.1|)).sum) := by
  induction l with
  | nil => intro acc; simp [admissibleNeighbors]
  | cons nb rest ih =>
    intro acc
    by_cases h : nb.2 ≠ itemLoc ∧ col.getD nb.2 0 ≠ 0
    · have hfilter : admissibleNeighbors (nb :: rest) itemLoc col
          = nb :: admissibleNeighbors rest itemLoc col := by
        simp only [admissibleNeighbors, List.filter_cons, decide_eq_true_eq]
        rw [if_pos h]
      rw [List.foldl_cons, predictStep_keep itemLoc col acc nb h, ih _, hfilter]
      rw [List.map_cons, List.map_cons, List.sum_cons, List.sum_cons, Prod.mk.injEq]
      constructor <;> ring
    · have hfilter : admissibleNeighbors (nb :: rest) itemLoc col
          = admissibleNeighbors rest itemLoc col := by
        simp only [admissibleNeighbors, List.filter_cons, decide_eq_true_eq]
        rw [if_neg h]
      rw [List.foldl_cons, predictStep_skip itemLoc col acc nb h, ih _, hfilter]

theorem predictSums_eq (neighbors : List (ℚ × ℕ)) (itemLoc : ℕ) (col : List ℚ) :
    predictSums neighbors itemLoc col
      = (((admissibleNeighbors neighbors itemLoc col).map
            (fun nb => col.getD nb.2 0 * nb.1)).sum,
         ((admissibleNeighbors neighbors itemLoc col).map
            (fun nb => |nb.1|)).sum) := by
  unfold predictSums
  rw [predictSums_foldl]
  simp

/-- Claim C1: whenever the accumulated weight sum is nonzero, the
predicted rating equals the weighted average
`sum (neighborRating * similarity) / sum (abs similarity)` taken over the
returned neighbors, excluding the query item's own row and every neighbor
whose rating by the user is the sentinel 0. -/
theorem predict_weighted_average (neighbors : List (ℚ × ℕ)) (itemLoc : ℕ)
    (col : List ℚ)
    (h : ((admissibleNeighbors neighbors itemLoc col).map
        (fun nb => |nb.1|)).sum ≠ 0) :
    predictRating neighbors itemLoc col
      = ((admissibleNeighbors neighbors itemLoc col).map
            (fun nb => col.getD nb.2 0 * nb.1)).sum
        / ((admissibleNeighbors neighbors itemLoc col).map
            (fun nb => |nb.1|)).sum := by
  unfold predictRating
  rw [predictSums_eq]
  simp [h]

theorem predict_weighted_average_witness :
    predictRating [((1 : ℚ), 1), (1/2, 0)] 0 [(3 : ℚ), 4]
      = ((admissibleNeighbors [((1 : ℚ), 1), (1/2, 0)] 0 [(3 : ℚ), 4]).map
            (fun nb => ([(3 : ℚ), 4]).getD nb.2 0 * nb.1)).sum
        / ((admissibleNeighbors [((1 : ℚ), 1), (1/2, 0)] 0 [(3 : ℚ), 4]).map
            (fun nb => |nb.1|)).sum :=
  predict_weighted_average [((1 : ℚ), 1), (1/2, 0)] 0 [(3 : ℚ), 4]
    (by
      have h : admissibleNeighbors [((1 : ℚ), 1), (1/2, 0)] 0 [(3 : ℚ), 4]
          = [((1 : ℚ), 1)] := by
        simp only [admissibleNeighbors, List.filter_cons]
        norm_num
      rw [h]
      norm_num)

/-- Claim C2: when the accumulated weight sum over admissible neighbors is
zero — in particular whenever the user's rating column is all zeros — the
prediction is 0, returned as a normal value of the total function
`predictRating` (the source logs a warning and returns, it does not
raise). -/
theorem predict_zero_weight (neighbors : List (ℚ × ℕ)) (itemLoc : ℕ)
    (col : List ℚ) :
    ((predictSums neighbors itemLoc col).2 = 0 →
        predictRating neighbors itemLoc col = 0)
      ∧ ((∀ x ∈ col, x = 0) → predictRating neighbors itemLoc col = 0) := by
  constructor
  · intro h
    unfold predictRating
    simp [h]
  · intro hcol
    have hz : ∀ nb : ℚ × ℕ, col.getD nb.2 0 = 0 := by
      intro nb
      by_cases hlt : nb.2 < col.length
      · rw [List.getD_eq_getElem col 0 hlt]
        exact hcol _ (List.getElem_mem hlt)
      · exact List.getD_eq_default col 0 (Nat.le_of_not_lt hlt)
    have hadm : admissibleNeighbors neighbors itemLoc col = [] := by
      rw [List.eq_nil_iff_forall_not_mem]
      intro nb hmem
      rw [admissibleNeighbors, List.mem_filter] at hmem
      have := of_decide_eq_true hmem.2
      exact this.2 (hz nb)
    have h2 : (predictSums neighbors itemLoc col).2 = 0 := by
      rw [predictSums_eq, hadm]
      simp
    unfold predictRating
    simp [h2]

theorem predict_zero_weight_witness :
    predictRating [((1 : ℚ), 1)] 0 [(0 : ℚ), 0] = 0 ∧
      predictRating [] 0 ([] : List ℚ) = 0 :=
  ⟨(predict_zero_weight [((1 : ℚ), 1)] 0 [(0 : ℚ), 0]).2 (by decide),
   (predict_zero_weight [] 0 ([] : List ℚ)).1 (by decide)⟩

/-! ## Theorems for the snapshot store -/

/-- Claim C3: saving a snapshot for a method and then loading that method
returns a snapshot whose matrix, labels and centroids are structurally
equal to the saved values, with a `computed_at` timestamp at or after the
save time (the upsert stamps it with the save time itself). -/
theorem save_load_roundtrip (store : Store) (method : String) (m : DF)
    (labels : List ℤ) (cents : Option (List (List ℚ))) (t : ℕ) :
    ∃ snap,
      load_precomputed (save_precomputed store method m labels cents t) method
          = some snap
        ∧ snap.user_item_matrix = m ∧ snap.cluster_labels = labels
        ∧ snap.centroids = cents ∧ t ≤ snap.computed_at := by
  refine ⟨⟨m, labels, cents, t⟩, ?_, rfl, rfl, rfl, le_refl t⟩
  simp [load_precomputed, save_precomputed]

/-- Claim C4: with nonempty rating and genre inputs, a recompute call for
an unrecognized method name fails with the invalid-method error and the
store after the call is exactly the store before it (the error is raised
before any save), while the recognized methods return the method name and
the pivot's item count. -/
theorem precompute_invalid_method (ratings : List RatingRec)
    (genres : List (ℤ × List ℚ)) (kmLabels : List ℤ)
    (kmCentroids : List (List ℚ)) (dbLabels : List ℤ) (now : ℕ)
    (store : Store) (method : String)
    (hr : ratings ≠ []) (hg : genres ≠ [])
    (h1 : method ≠ "kmeans") (h2 : method ≠ "dbscan") :
    run_precompute ratings genres kmLabels kmCentroids dbLabels now store method
        = (Except.error "Unknown precompute method", store)
      ∧ (run_precompute ratings genres kmLabels kmCentroids dbLabels now store
          "kmeans").1 = Except.ok ⟨"kmeans", (pivotIndex ratings).length⟩
      ∧ (run_precompute ratings genres kmLabels kmCentroids dbLabels now store
          "dbscan").1 = Except.ok ⟨"dbscan", (pivotIndex ratings).length⟩ := by
  have hor : ¬(ratings = [] ∨ genres = []) := by
    rintro (h | h)
    · exact hr h
    · exact hg h
  unfold run_precompute
  rw [if_neg hor, if_neg h1, if_neg h2]
  refine ⟨rfl, ?_, ?_⟩
  · rw [if_neg hor, if_pos rfl]
  · rw [if_neg hor, if_neg (by decide : ¬("dbscan" : String) = "kmeans"), if_pos rfl]

theorem precompute_invalid_method_witness :
    run_precompute [⟨"alice", 1, 5⟩] [(1, [1])] [0] [[1]] [0] 0
        (fun _ => none) "pca"
        = (Except.error "Unknown precompute method", (fun _ => none : Store))
      ∧ (run_precompute [⟨"alice", 1, 5⟩] [(1, [1])] [0] [[1]] [0] 0
          (fun _ => none) "kmeans").1
        = Except.ok ⟨"kmeans", (pivotIndex [⟨"alice", 1, 5⟩]).length⟩
      ∧ (run_precompute [⟨"alice", 1, 5⟩] [(1, [1])] [0] [[1]] [0] 0
          (fun _ => none) "dbscan").1
        = Except.ok ⟨"dbscan", (pivotIndex [⟨"alice", 1, 5⟩]).length⟩ :=
  precompute_invalid_method [⟨"alice", 1, 5⟩] [(1, [1])] [0] [[1]] [0] 0
    (fun _ => none) "pca" (by simp) (by simp) (by decide) (by decide)

/-! ## Theorems for the feature-matrix builders -/

/-- Claim C5 counterexample: the kappa feature-matrix builder
(`src/kappa/load_data.py` line 36) uses an inner join, so an item that is
present in the rating pivot but has no genre row is dropped from the
cluster feature matrix — here item 2 is in the pivot yet missing from the
join result. -/
theorem kappa_join_drops_item :
    (2 : ℤ) ∈ ([((1 : ℤ), [(5 : ℚ)]), (2, [3])].map Prod.fst)
      ∧ (2 : ℤ) ∉ ((kappaClusterRows [((1 : ℤ), [(5 : ℚ)]), (2, [3])]
          [((1 : ℤ), [1, 0])]).map Prod.fst) := by
  refine ⟨by decide, ?_⟩
  intro h
  revert h
  decide

/-- Claim C5 amended: the legacy feature-matrix builder (`load_data.py`
lines 138-155) left-joins the genre table and zero-fills, so every item of
the rating pivot appears in its cluster feature matrix, with an all-zero
genre vector whenever the item has no genre row; the kappa builder
(`src/kappa/load_data.py` line 36) instead inner-joins and drops items
lacking a genre row. -/
theorem legacy_join_keeps_items (pivot gt : List (ℤ × List ℚ)) (g : ℕ)
    (p : ℤ × List ℚ) (hp : p ∈ pivot) :
    ∃ gv, (p.1, p.2 ++ gv) ∈ legacyClusterRows pivot gt g
      ∧ (lookupGenre gt p.1 = none → gv = List.replicate g 0) := by
  refine ⟨(lookupGenre gt p.1).getD (List.replicate g 0), ?_, ?_⟩
  · unfold legacyClusterRows
    exact List.mem_map_of_mem _ hp
  · intro h
    rw [h]
    rfl

theorem legacy_join_keeps_items_witness :
    ∃ gv, ((2 : ℤ), [(3 : ℚ)] ++ gv)
        ∈ legacyClusterRows [((1 : ℤ), [(5 : ℚ)]), (2, [3])]
            [((1 : ℤ), [1, 0])] 2
      ∧ (lookupGenre [((1 : ℤ), [1, 0])] (2 : ℤ) = none →
          gv = List.replicate 2 0) :=
  legacy_join_keeps_items [((1 : ℤ), [(5 : ℚ)]), (2, [3])]
    [((1 : ℤ), [1, 0])] 2 ((2 : ℤ), [(3 : ℚ)]) (by decide)

/-! ## Theorems for the per-request working matrix -/

/-- Claim C8 counterexample: pandas column assignment replaces an existing
column of the same name, so when the cached snapshot already contains a
user column literally named KAPPA_NEW_USER the working matrix has the same
column count as the snapshot rather than one more. -/
theorem request_matrix_column_clash :
    ¬((request_user_item_matrix ⟨[1], [(KAPPA_USER_ID, [5])]⟩ []).cols.length
        = (⟨[1], [(KAPPA_USER_ID, [5])]⟩ : DF).cols.length + 1) := by
  decide

/-- Claim C8 amended: provided no snapshot column is already named
KAPPA_NEW_USER, the working matrix built for a request equals the cached
snapshot matrix with exactly one extra column appended — the ephemeral
seed-user column — and the index and every prior column are identical to
the snapshot's.  The snapshot value itself is untouched: the source copies
it first, which is what makes the working matrix a pure function of the
snapshot. -/
theorem request_matrix_appends_one_column (snap : DF) (input : List (ℤ × ℚ))
    (h : KAPPA_USER_ID ∉ snap.cols.map Prod.fst) :
    (request_user_item_matrix snap input).index = snap.index
      ∧ (request_user_item_matrix snap input).cols
        = snap.cols ++ [(KAPPA_USER_ID, buildUserRatings snap.index input)] := by
  unfold request_user_item_matrix setColumn
  rw [if_neg h]
  exact ⟨rfl, rfl⟩

theorem request_matrix_appends_one_column_witness :
    (request_user_item_matrix ⟨[1], [("alice", [4])]⟩ [((1 : ℤ), (5 : ℚ))]).index
        = (⟨[1], [("alice", [4])]⟩ : DF).index
      ∧ (request_user_item_matrix ⟨[1], [("alice", [4])]⟩ [((1 : ℤ), (5 : ℚ))]).cols
        = (⟨[1], [("alice", [4])]⟩ : DF).cols
            ++ [(KAPPA_USER_ID,
                  buildUserRatings (⟨[1], [("alice", [4])]⟩ : DF).index
                    [((1 : ℤ), (5 : ℚ))])] :=
  request_matrix_appends_one_column ⟨[1], [("alice", [4])]⟩ [((1 : ℤ), (5 : ℚ))]
    (by decide)

/-! ## Theorems for the centroid distances -/

theorem filterMap_ite {β : Type} (q : ℕ → Prop) [DecidablePred q] (g : ℕ → β) :
    ∀ l : List ℕ,
      l.filterMap (fun i => if q i then none else some (g i))
        = (l.filter (fun i => ¬ q i)).map g := by
  intro l
  induction l with
  | nil => rfl
  | cons a l ih =>
    by_cases h : q a
    · simp only [List.filterMap_cons, List.filter_cons, h, if_pos,
        decide_eq_true_eq, decide_not]
      simp [h, ih]
    · simp only [List.filterMap_cons, List.filter_cons]
      simp [h, ih]

theorem sqDist_comm : ∀ u v : List ℚ, sqDist u v = sqDist v u := by
  intro u
  induction u with
  | nil =>
    intro v
    cases v <;> rfl
  | cons a u ih =>
    intro v
    cases v with
    | nil => rfl
    | cons b v =>
      have ih' : (List.zipWith (fun a b => (a - b) ^ 2) u v).sum
          = (List.zipWith (fun a b => (a - b) ^ 2) v u).sum := ih v
      unfold sqDist
      simp only [List.zipWith_cons_cons, List.sum_cons]
      rw [ih']
      ring

theorem find?_unique {α : Type} {p : α → Bool} {x : α} :
    ∀ {l : List α}, x ∈ l → p x = true → (∀ y ∈ l, p y = true → y = x) →
      l.find? p = some x := by
  intro l
  induction l with
  | nil =>
    intro h
    exact absurd h (List.not_mem_nil x)
  | cons a l ih =>
    intro hmem hx huniq
    by_cases hpa : p a = true
    · have ha : a = x := huniq a (List.mem_cons_self a l) hpa
      subst ha
      simp [List.find?_cons, hpa]
    · have hmem' : x ∈ l := by
        rcases List.mem_cons.mp hmem with h | h
        · exact absurd (h ▸ hx) hpa
        · exact h
      simp only [List.find?_cons]
      rw [Bool.eq_false_iff.mpr hpa]
      exact ih hmem' hx (fun y hy => huniq y (List.mem_cons_of_mem a hy))

theorem fcd_in_bounds (which : ℤ) (cs : List (List ℚ))
    (h0 : 0 ≤ which) (h1 : which < (cs.length : ℤ)) :
    find_centroid_distance which cs
      = some (((List.range cs.length).filter
          (fun (i : ℕ) => ¬((i : ℤ) = which))).map (fun (i : ℕ) =>
            ((i : ℤ), sqDist (cs.getD which.toNat []) (cs.getD i [])))) := by
  unfold find_centroid_distance
  rw [if_neg (by omega), filterMap_ite (fun i : ℕ => (i : ℤ) = which)]

theorem centroidLookup_eq (cs : List (List ℚ)) (a b : ℤ)
    (ha0 : 0 ≤ a) (ha : a < (cs.length : ℤ)) (hb0 : 0 ≤ b)
    (hb : b < (cs.length : ℤ)) (hab : a ≠ b) :
    centroidLookup a b cs
      = some (sqDist (cs.getD a.toNat []) (cs.getD b.toNat [])) := by
  unfold centroidLookup
  rw [fcd_in_bounds a cs ha0 ha]
  have hcast : ((b.toNat : ℕ) : ℤ) = b := Int.toNat_of_nonneg hb0
  have hfind :
      List.find? ((fun p : ℤ × ℚ => decide (p.1 = b)) ∘ (fun i : ℕ =>
          ((i : ℤ), sqDist (cs.getD a.toNat []) (cs.getD i []))))
        ((List.range cs.length).filter (fun (i : ℕ) => ¬((i : ℤ) = a)))
        = some b.toNat := by
    apply find?_unique
    · apply List.mem_filter.mpr
      refine ⟨List.mem_range.mpr (by omega), ?_⟩
      simp only [decide_eq_true_eq, hcast]
      exact fun h => hab h.symm
    · simp only [Function.comp_apply, decide_eq_true_eq, hcast]
    · intro y _ hy
      simp only [Function.comp_apply, decide_eq_true_eq] at hy
      omega
  rw [Option.some_bind, List.find?_map, hfind]
  rfl

theorem centroidLookup_self (cs : List (List ℚ)) (a : ℤ)
    (ha0 : 0 ≤ a) (ha : a < (cs.length : ℤ)) :
    centroidLookup a a cs = none := by
  unfold centroidLookup
  rw [fcd_in_bounds a cs ha0 ha, Option.some_bind]
  have hfind :
      List.find? (fun p : ℤ × ℚ => p.1 = a)
        (((List.range cs.length).filter (fun (i : ℕ) => ¬((i : ℤ) = a))).map
          (fun i : ℕ =>
            ((i : ℤ), sqDist (cs.getD a.toNat []) (cs.getD i [])))) = none := by
    rw [List.find?_eq_none]
    intro x hx
    obtain ⟨i, hi, rfl⟩ := List.mem_map.mp hx
    have hmem := (List.mem_filter.mp hi).2
    simp only [decide_eq_true_eq] at hmem ⊢
    exact hmem
  rw [hfind]
  rfl

/-- Claim C9 counterexample: `find_centroid_distance` skips the query
cluster itself, so the returned mapping reports no distance from a cluster
to itself at all — it is absent, not 0.  Here, with two in-bounds
clusters, looking the query cluster up in its own result yields nothing. -/
theorem centroid_self_distance_omitted :
    centroidLookup 0 0 [[(0 : ℚ)], [1]] ≠ some 0 := by
  have h := centroidLookup_self [[(0 : ℚ)], [1]] 0 (by decide) (by decide)
  rw [h]
  intro hc
  exact Option.noConfusion hc

/-- Claim C9 amended: for in-bounds clusters the reported centroid
distances are symmetric — the distance reported from `a` to `b` equals the
one reported from `b` to `a` — but the self-distance is omitted from the
returned mapping (the `continue` skips the query cluster) rather than
reported as 0. -/
theorem centroid_distance_symm (cs : List (List ℚ)) (a b : ℤ)
    (ha0 : 0 ≤ a) (ha : a < (cs.length : ℤ)) (hb0 : 0 ≤ b)
    (hb : b < (cs.length : ℤ)) :
    centroidLookup a b cs = centroidLookup b a cs
      ∧ centroidLookup a a cs = none := by
  refine ⟨?_, centroidLookup_self cs a ha0 ha⟩
  by_cases hab : a = b
  · rw [hab]
  · rw [centroidLookup_eq cs a b ha0 ha hb0 hb hab,
      centroidLookup_eq cs b a hb0 hb ha0 ha (Ne.symm hab), sqDist_comm]

theorem centroid_distance_symm_witness :
    centroidLookup 0 1 [[(0 : ℚ)], [1]] = centroidLookup 1 0 [[(0 : ℚ)], [1]]
      ∧ centroidLookup 0 0 [[(0 : ℚ)], [1]] = none :=
  centroid_distance_symm [[(0 : ℚ)], [1]] 0 1 (by decide) (by decide)
    (by decide) (by decide)

/-! ## Theorems for the cluster merger -/

theorem mergeGo_extends (all : List CRow) (k : ℤ) :
    ∀ (pending : List (ℤ × ℚ)) (cur : List CRow),
      ∃ t, cur ++ t = (mergeGo all k pending cur).1 := by
  intro pending
  induction pending with
  | nil =>
    intro cur
    exact ⟨[], List.append_nil cur⟩
  | cons p rest ih =>
    intro cur
    unfold mergeGo
    by_cases h : k ≤ (cur.length : ℤ) - 1
    · rw [if_pos h]
      exact ⟨[], List.append_nil cur⟩
    · rw [if_neg h]
      obtain ⟨t, ht⟩ := ih (cur ++ clusterRows all p.1)
      exact ⟨clusterRows all p.1 ++ t, by rw [← List.append_assoc, ht]⟩

theorem mergeGo_length_mono (all : List CRow) (k : ℤ)
    (pending : List (ℤ × ℚ)) (cur : List CRow) :
    cur.length ≤ (mergeGo all k pending cur).1.length := by
  obtain ⟨t, ht⟩ := mergeGo_extends all k pending cur
  rw [← ht, List.length_append]
  exact Nat.le_add_right _ _

theorem mergeGo_count_le (all : List CRow) (k : ℤ) :
    ∀ (pending : List (ℤ × ℚ)) (cur : List CRow),
      (mergeGo all k pending cur).2 ≤ pending.length := by
  intro pending
  induction pending with
  | nil =>
    intro cur
    exact Nat.le_refl 0
  | cons p rest ih =>
    intro cur
    unfold mergeGo
    by_cases h : k ≤ (cur.length : ℤ) - 1
    · rw [if_pos h]
      exact Nat.zero_le _
    · rw [if_neg h]
      exact Nat.succ_le_succ (ih (cur ++ clusterRows all p.1))

theorem countP_not_add {α : Type} (p : α → Bool) :
    ∀ l : List α, List.countP (fun a => !(p a)) l + List.countP p l = l.length := by
  intro l
  induction l with
  | nil => rfl
  | cons a l ih =>
    rw [List.countP_cons, List.countP_cons, List.length_cons]
    cases h : p a <;> simp [h] <;> omega

theorem fcd_length (which : ℤ) (cs : List (List ℚ))
    (h0 : 0 ≤ which) (h1 : which < (cs.length : ℤ)) :
    ∃ cd, find_centroid_distance which cs = some cd
      ∧ cd.length = cs.length - 1 := by
  rw [fcd_in_bounds which cs h0 h1]
  refine ⟨_, rfl, ?_⟩
  rw [List.length_map, ← List.countP_eq_length_filter]
  have hw : which.toNat < cs.length := by omega
  have hone : List.countP (fun i : ℕ => decide ((i : ℤ) = which))
      (List.range cs.length) = 1 := by
    have hcongr : List.countP (fun i : ℕ => decide ((i : ℤ) = which))
        (List.range cs.length)
        = List.countP (fun i : ℕ => i == which.toNat) (List.range cs.length) := by
      apply List.countP_congr
      intro x _
      simp only [decide_eq_true_eq, beq_iff_eq]
      omega
    rw [hcongr, ← List.count_eq_countP]
    exact List.count_eq_one_of_mem (List.nodup_range cs.length)
      (List.mem_range.mpr hw)
  have hlen := List.length_range cs.length
  have hnot : List.countP (fun i : ℕ => decide ¬((i : ℤ) = which))
      (List.range cs.length)
      = List.countP (fun i : ℕ => !(decide ((i : ℤ) = which)))
        (List.range cs.length) := by
    apply List.countP_congr
    intro x _
    simp [decide_not]
  have hadd := countP_not_add (fun i : ℕ => decide ((i : ℤ) = which))
    (List.range cs.length)
  rw [hnot]
  omega

/-- Claim C6: whenever the query cluster index is in bounds, `merge_cluster`
succeeds and returns a best-effort superset of the working set (even when
every other cluster is exhausted without reaching `k` members, the
accumulated set is returned rather than an error); the working member
count never decreases across merge iterations, from any intermediate
state; and the loop performs at most `numClusters - 1` merge iterations. -/
theorem merge_cluster_monotone_bounded (clustered all : List CRow)
    (which : ℤ) (centroids : List (List ℚ)) (k : ℤ)
    (h0 : 0 ≤ which) (h1 : which < (centroids.length : ℤ)) :
    (∃ res, merge_cluster clustered all which centroids k = some res
        ∧ ∃ t, clustered ++ t = res)
      ∧ (∀ (pending : List (ℤ × ℚ)) (cur : List CRow),
          cur.length ≤ (mergeGo all k pending cur).1.length)
      ∧ mergeIterations clustered all which centroids k
          ≤ centroids.length - 1 := by
  obtain ⟨cd, hcd, hlen⟩ := fcd_length which centroids h0 h1
  refine ⟨?_, fun pending cur => mergeGo_length_mono all k pending cur, ?_⟩
  · unfold merge_cluster
    simp only [hcd]
    by_cases hnil : cd = []
    · rw [if_pos hnil]
      exact ⟨clustered, rfl, [], List.append_nil clustered⟩
    · rw [if_neg hnil]
      exact ⟨_, rfl, mergeGo_extends all k (mergeSorted cd) clustered⟩
  · unfold mergeIterations
    simp only [hcd]
    by_cases hnil : cd = []
    · rw [if_pos hnil]
      exact Nat.zero_le _
    · rw [if_neg hnil]
      have hcount := mergeGo_count_le all k (mergeSorted cd) clustered
      have hslen : (mergeSorted cd).length = cd.length := by
        unfold mergeSorted
        exact List.length_insertionSort distAscOrder cd
      omega

theorem merge_cluster_monotone_bounded_witness :
    (∃ res, merge_cluster [⟨1, [0], 0⟩] [⟨1, [0], 0⟩, ⟨2, [1], 1⟩] 0
          [[(0 : ℚ)], [1]] 10 = some res
        ∧ ∃ t, [(⟨1, [0], 0⟩ : CRow)] ++ t = res)
      ∧ (∀ (pending : List (ℤ × ℚ)) (cur : List CRow),
          cur.length
            ≤ (mergeGo [⟨1, [0], 0⟩, ⟨2, [1], 1⟩] 10 pending cur).1.length)
      ∧ mergeIterations [⟨1, [0], 0⟩] [⟨1, [0], 0⟩, ⟨2, [1], 1⟩] 0
          [[(0 : ℚ)], [1]] 10 ≤ [[(0 : ℚ)], [1]].length - 1 :=
  merge_cluster_monotone_bounded [⟨1, [0], 0⟩] [⟨1, [0], 0⟩, ⟨2, [1], 1⟩] 0
    [[(0 : ℚ)], [1]] 10 (by decide) (by decide)

/-! ## Theorems for the online prediction list -/

/-- Claim C7: for a request whose seed ratings matched at least one
snapshot item, every entry of the returned prediction list is for an item
the caller did not rate in the seed list, and the list is sorted in
descending order of predicted rating. -/
theorem prediction_list_unrated_sorted (rated index : List ℤ)
    (neigh : ℤ → List ℤ) (ratePred : ℤ → ℚ) (h : rated ≠ []) :
    (∀ p ∈ kappaPredictionList rated index neigh ratePred, p.1 ∉ rated)
      ∧ List.Sorted ratingDescOrder
          (kappaPredictionList rated index neigh ratePred) := by
  constructor
  · intro p hp
    unfold kappaPredictionList at hp
    rw [List.mem_insertionSort] at hp
    have hp2 := (List.mem_filter.mp hp).1
    obtain ⟨i, hi, rfl⟩ := List.mem_map.mp hp2
    unfold find_nearest_unrated np_setdiff1d at hi
    exact of_decide_eq_true (List.mem_filter.mp hi).2
  · exact List.sorted_insertionSort ratingDescOrder _

theorem prediction_list_unrated_sorted_witness :
    (∀ p ∈ kappaPredictionList [1] [1, 2] (fun _ => [1, 2]) (fun _ => 4),
        p.1 ∉ ([1] : List ℤ))
      ∧ List.Sorted ratingDescOrder
          (kappaPredictionList [1] [1, 2] (fun _ => [1, 2]) (fun _ => 4)) :=
  prediction_list_unrated_sorted [1] [1, 2] (fun _ => [1, 2]) (fun _ => 4)
    (by simp)

/-! ## Theorems for duplicate seed ratings -/

theorem indexLookup_inv (index : List ℤ) (c : ℤ) :
    ∀ (l : List (ℤ × ℕ)) (a : Option ℕ),
      (∀ p ∈ l, index[p.2]? = some p.1) →
      (∀ j, a = some j → index[j]? = some c) →
      ∀ j, l.foldl (fun acc p => if p.1 = c then some p.2 else acc) a = some j →
        index[j]? = some c := by
  intro l
  induction l with
  | nil =>
    intro a _ ha j hj
    exact ha j hj
  | cons p rest ih =>
    intro a hl ha j hj
    rw [List.foldl_cons] at hj
    refine ih _ (fun q hq => hl q (List.mem_cons_of_mem p hq)) ?_ j hj
    intro j' hj'
    by_cases hpc : p.1 = c
    · rw [if_pos hpc] at hj'
      have hj2 := Option.some.inj hj'
      rw [← hj2, hl p (List.mem_cons_self p rest), hpc]
    · rw [if_neg hpc] at hj'
      exact ha j' hj'

theorem indexLookup_found (index : List ℤ) (c : ℤ) :
    ∀ j, indexLookup index c = some j → index[j]? = some c := by
  have hpairs : ∀ p ∈ index.zip (List.range index.length),
      index[p.2]? = some p.1 := by
    intro p hp
    obtain ⟨n, hn⟩ := List.mem_iff_getElem?.mp hp
    obtain ⟨h1, h2⟩ := List.getElem?_zip_eq_some.mp hn
    have hlt : n < index.length := (List.getElem?_eq_some.mp h1).1
    rw [List.getElem?_range hlt] at h2
    have hpn : p.2 = n := (Option.some.inj h2).symm
    rw [hpn]
    exact h1
  intro j hj
  unfold indexLookup at hj
  exact indexLookup_inv index c _ none hpairs
    (fun j' h => Option.noConfusion h) j hj

theorem buildAux (index : List ℤ) (c : ℤ) (i : ℕ)
    (hl : indexLookup index c = some i) :
    ∀ (input : List (ℤ × ℚ)) (arr : List ℚ), arr.length = index.length →
      (input.foldl (fun arr e =>
          match indexLookup index e.1 with
          | some j => arr.set j e.2
          | none => arr) arr)[i]?
        = (match input.reverse.find? (fun e => e.1 = c) with
            | some e => some e.2
            | none => arr[i]?) := by
  have hic : index[i]? = some c := indexLookup_found index c i hl
  have hilt : i < index.length := (List.getElem?_eq_some.mp hic).1
  intro input
  induction input with
  | nil =>
    intro arr _
    rfl
  | cons e rest ih =>
    intro arr hlen
    rw [List.foldl_cons, List.reverse_cons, List.find?_append]
    have hlen' : (match indexLookup index e.1 with
        | some j => arr.set j e.2
        | none => arr).length = index.length := by
      cases h : indexLookup index e.1 <;> simp [h, hlen, List.length_set]
    rw [ih _ hlen']
    cases hfind : rest.reverse.find? (fun e => decide (e.1 = c)) with
    | some q => rfl
    | none =>
      rw [Option.none_or]
      by_cases hec : e.1 = c
      · have he : indexLookup index e.1 = some i := by
          rw [hec]
          exact hl
        have harr : (match indexLookup index e.1 with
            | some j => arr.set j e.2
            | none => arr) = arr.set i e.2 := by
          rw [he]
        have hfe : List.find? (fun e : ℤ × ℚ => decide (e.1 = c)) [e] = some e := by
          simp [List.find?_cons, hec]
        have hia : i < arr.length := by omega
        rw [harr, hfe, List.getElem?_set_self hia]
      · have hfe : List.find? (fun e : ℤ × ℚ => decide (e.1 = c)) [e] = none := by
          simp [List.find?_cons, hec]
        rw [hfe]
        cases hj : indexLookup index e.1 with
        | none => rfl
        | some j =>
          have hjc := indexLookup_found index e.1 j hj
          have hji : j ≠ i := by
            intro hji
            rw [hji, hic] at hjc
            exact hec (Option.some.inj hjc).symm
          show (arr.set j e.2)[i]? = arr[i]?
          exact List.getElem?_set_ne hji

theorem foldl_max_spec : ∀ (xs : List ℚ) (x : ℚ),
    xs.foldl max x ∈ x :: xs ∧ x ≤ xs.foldl max x
      ∧ ∀ y ∈ xs, y ≤ xs.foldl max x := by
  intro xs
  induction xs with
  | nil =>
    intro x
    refine ⟨List.mem_cons_self x [], le_refl x, ?_⟩
    intro y hy
    exact absurd hy (List.not_mem_nil y)
  | cons a xs ih =>
    intro x
    rw [List.foldl_cons]
    obtain ⟨hm, hle, hall⟩ := ih (max x a)
    refine ⟨?_, le_trans (le_max_left x a) hle, ?_⟩
    · rcases List.mem_cons.mp hm with h | h
      · rcases max_choice x a with hx | ha
        · rw [h, hx]
          exact List.mem_cons_self x (a :: xs)
        · rw [h, ha]
          exact List.mem_cons_of_mem x (List.mem_cons_self a xs)
      · exact List.mem_cons_of_mem x (List.mem_cons_of_mem a h)
    · intro y hy
      rcases List.mem_cons.mp hy with h | h
      · rw [h]
        exact le_trans (le_max_right x a) hle
      · exact hall y h

/-- Claim C10: when the seed rating list contains several entries with the
same comic id, the online request path assigns the rating of the last such
entry to the seed user's column position (later entries overwrite earlier
ones), while the offline pivot cell resolves duplicate `(item, user)`
ratings by taking their maximum (the aggregated cell is one of the
duplicate ratings and bounds them all from above). -/
theorem duplicate_seed_last_wins :
    (∀ (index : List ℤ) (input : List (ℤ × ℚ)) (c : ℤ) (i : ℕ) (r : ℚ),
        indexLookup index c = some i →
        input.reverse.find? (fun e => e.1 = c) = some (c, r) →
        (buildUserRatings index input)[i]? = some r)
      ∧ (∀ (data : List RatingRec) (item : ℤ) (user : String),
          pivotRatings data item user ≠ [] →
          pivotCell data item user ∈ pivotRatings data item user
            ∧ ∀ x ∈ pivotRatings data item user,
                x ≤ pivotCell data item user) := by
  constructor
  · intro index input c i r hl hfind
    unfold buildUserRatings
    rw [buildAux index c i hl input (List.replicate index.length 0)
      (List.length_replicate index.length 0), hfind]
  · intro data item user hne
    unfold pivotCell
    cases hp : pivotRatings data item user with
    | nil => exact absurd hp hne
    | cons x xs =>
      obtain ⟨hm, hle, hall⟩ := foldl_max_spec xs x
      refine ⟨hm, ?_⟩
      intro y hy
      rcases List.mem_cons.mp hy with h | h
      · rw [h]
        exact hle
      · exact hall y h

theorem duplicate_seed_last_wins_witness :
    (buildUserRatings [(1 : ℤ)] [((1 : ℤ), (5 : ℚ)), (1, 2)])[0]? = some 2
      ∧ pivotCell [⟨"u", 1, 5⟩, ⟨"u", 1, 2⟩] 1 "u"
          ∈ pivotRatings [⟨"u", 1, 5⟩, ⟨"u", 1, 2⟩] 1 "u"
      ∧ ∀ x ∈ pivotRatings [⟨"u", 1, 5⟩, ⟨"u", 1, 2⟩] 1 "u",
          x ≤ pivotCell [⟨"u", 1, 5⟩, ⟨"u", 1, 2⟩] 1 "u" :=
  ⟨duplicate_seed_last_wins.1 [(1 : ℤ)] [((1 : ℤ), (5 : ℚ)), (1, 2)] 1 0 2
      (by decide) (by decide),
   (duplicate_seed_last_wins.2 [⟨"u", 1, 5⟩, ⟨"u", 1, 2⟩] 1 "u" (by decide)).1,
   (duplicate_seed_last_wins.2 [⟨"u", 1, 5⟩, ⟨"u", 1, 2⟩] 1 "u" (by decide)).2⟩

end Kappa
